import Mathlib

/-!
Verification of the Babbl front-end shortcut recorder and input normalizer.

This file embeds the TypeScript modules `src/lib/utils/keyboard.ts`
(shipped inside `src/overlay/RecordingOverlay.tsx` in this slice), the
`BabblShortcut` recorder component from
`src/components/settings/OnlineProviderToggle.tsx`, the overlay event
subscriptions from `src/overlay/RecordingOverlay.tsx`, and the
`TranslateToEnglish` subscription effect, as Lean definitions, and proves
properties of them.

Modelling conventions:
- JS strings are modelled as Lean `String` / `List Char`; the inputs of
  interest are ASCII, and `toLowerCase` / `toUpperCase` are modelled on the
  ASCII range, which is exact for every string the program manipulates here.
- JS numbers used by the mic-level smoothing are modelled as exact rationals
  (the recurrence uses only the literals 0.7 and 0.3).
- The asynchronous backend command bridge is modelled by an explicit trace of
  issued calls plus a success oracle for `updateBinding`; `suspendBinding`
  and `resumeBinding` rejections are swallowed by `.catch` in the source, so
  only the fact that the call was issued is observable.
-/

/-- ASCII model of JS `String.prototype.toLowerCase` applied per character. -/
def toLowerChar (c : Char) : Char :=
  match c with
  | 'A' => 'a' | 'B' => 'b' | 'C' => 'c' | 'D' => 'd' | 'E' => 'e'
  | 'F' => 'f' | 'G' => 'g' | 'H' => 'h' | 'I' => 'i' | 'J' => 'j'
  | 'K' => 'k' | 'L' => 'l' | 'M' => 'm' | 'N' => 'n' | 'O' => 'o'
  | 'P' => 'p' | 'Q' => 'q' | 'R' => 'r' | 'S' => 's' | 'T' => 't'
  | 'U' => 'u' | 'V' => 'v' | 'W' => 'w' | 'X' => 'x' | 'Y' => 'y'
  | 'Z' => 'z'
  | other => other

/-- ASCII model of JS `String.prototype.toUpperCase` applied per character. -/
def toUpperChar (c : Char) : Char :=
  match c with
  | 'a' => 'A' | 'b' => 'B' | 'c' => 'C' | 'd' => 'D' | 'e' => 'E'
  | 'f' => 'F' | 'g' => 'G' | 'h' => 'H' | 'i' => 'I' | 'j' => 'J'
  | 'k' => 'K' | 'l' => 'L' | 'm' => 'M' | 'n' => 'N' | 'o' => 'O'
  | 'p' => 'P' | 'q' => 'Q' | 'r' => 'R' | 's' => 'S' | 't' => 'T'
  | 'u' => 'U' | 'v' => 'V' | 'w' => 'W' | 'x' => 'X' | 'y' => 'Y'
  | 'z' => 'Z'
  | other => other

/-- The regex character class `[a-z]`. -/
def jsIsLower (c : Char) : Bool :=
  match c with
  | 'a' | 'b' | 'c' | 'd' | 'e' | 'f' | 'g' | 'h' | 'i' | 'j' | 'k' | 'l'
  | 'm' | 'n' | 'o' | 'p' | 'q' | 'r' | 's' | 't' | 'u' | 'v' | 'w' | 'x'
  | 'y' | 'z' => true
  | _ => false

/-- The regex character class `[A-Z]`. -/
def jsIsUpper (c : Char) : Bool :=
  match c with
  | 'A' | 'B' | 'C' | 'D' | 'E' | 'F' | 'G' | 'H' | 'I' | 'J' | 'K' | 'L'
  | 'M' | 'N' | 'O' | 'P' | 'Q' | 'R' | 'S' | 'T' | 'U' | 'V' | 'W' | 'X'
  | 'Y' | 'Z' => true
  | _ => false

/-- The regex character class `\d`. -/
def jsIsDigit (c : Char) : Bool :=
  match c with
  | '0' | '1' | '2' | '3' | '4' | '5' | '6' | '7' | '8' | '9' => true
  | _ => false

/-- Lowercasing a character list, as JS `toLowerCase` on an ASCII string. -/
def lowerL (l : List Char) : List Char := l.map toLowerChar

/-- JS whitespace test restricted to the characters that can occur here. -/
def isJsWs (c : Char) : Bool :=
  c = ' ' || c = '\t' || c = '\n' || c = '\r'

/-- Model of JS `String.prototype.trim` on a character list. -/
def trimL (l : List Char) : List Char :=
  ((l.dropWhile isJsWs).reverse.dropWhile isJsWs).reverse

/-- Model `startsL pre l` of JS `l.startsWith(pre)`. -/
def startsL : List Char → List Char → Bool
  | [], _ => true
  | _, [] => false
  | c :: cs, d :: ds => c = d && startsL cs ds

/-- Model of JS `String.prototype.split` with a single-character separator:
`splitOnChar c l` returns the (possibly empty) pieces between occurrences of
`c`; the empty list splits to `[[]]`, as in JS. -/
def splitOnChar (c : Char) : List Char → List (List Char)
  | [] => [[]]
  | x :: xs =>
    if x = c then [] :: splitOnChar c xs
    else
      match splitOnChar c xs with
      | [] => [[x]]
      | p :: ps => (x :: p) :: ps

/-- Model of JS `Array.prototype.join` with separator `sep`. -/
def joinSep (sep : List Char) : List (List Char) → List Char
  | [] => []
  | [x] => x
  | x :: y :: xs => x ++ sep ++ joinSep sep (y :: xs)

/-- Operating system type, from `keyboard.ts` (`export type OSType`). -/
inductive OSType
  | macos
  | windows
  | linux
  | unknown
deriving DecidableEq, Repr

/-- The fields of a DOM `KeyboardEvent` read by `getKeyName` and the
recording handlers. Absent `code`/`key` fields are modelled as `""` and
absent numeric codes as `0`, which is what JS truthiness tests see. -/
structure KeyEvent where
  code : String
  key : String
  keyCode : Nat
  which : Nat
  isRepeat : Bool
deriving DecidableEq, Repr

/-- Regex test `^F\d+$` from `getKeyName`. -/
def isFnKeyCode (l : List Char) : Bool :=
  match l with
  | 'F' :: rest => (!rest.isEmpty) && rest.all jsIsDigit
  | _ => false

/-- Regex match `^Key[A-Z]$` from `getKeyName`, returning the letter. -/
def keyLetterCode : List Char → Option Char
  | ['K', 'e', 'y', c] => if jsIsUpper c then some c else none
  | _ => none

/-- Regex match `^Digit\d$` from `getKeyName`, returning the digit. -/
def digitCode : List Char → Option Char
  | ['D', 'i', 'g', 'i', 't', d] => if jsIsDigit d then some d else none
  | _ => none

/-- Regex match `^Numpad\d$` from `getKeyName`, returning the digit. -/
def numpadDigitCode : List Char → Option Char
  | ['N', 'u', 'm', 'p', 'a', 'd', d] => if jsIsDigit d then some d else none
  | _ => none

/-- Global replace of `/([a-z])([A-Z])/g` by `"$1 $2"`: inserts a space at
each lowercase-to-uppercase boundary. Scanning resumes after each match; the
second character of a match is uppercase and can never begin a new match, so
the sliding-window recursion is equivalent. -/
def camelSplitL : List Char → List Char
  | [] => []
  | [x] => [x]
  | x :: y :: rest =>
    if jsIsLower x && jsIsUpper y then x :: ' ' :: camelSplitL (y :: rest)
    else x :: camelSplitL (y :: rest)

/-- The `getModifierName` closure inside `getKeyName` (OS-aware modifier names). -/
def getModifierName (osType : OSType) (baseModifier : String) : String :=
  if baseModifier = "shift" then "shift"
  else if baseModifier = "ctrl" then
    (if osType = OSType.macos then "ctrl" else "ctrl")
  else if baseModifier = "alt" then
    (if osType = OSType.macos then "option" else "alt")
  else if baseModifier = "meta" then
    (if osType = OSType.macos then "command" else "super")
  else baseModifier

/-- The `modifierMap` object literal inside `getKeyName`. -/
def modifierMap (osType : OSType) : List (String × String) :=
  [("ShiftLeft", getModifierName osType "shift"),
   ("ShiftRight", getModifierName osType "shift"),
   ("ControlLeft", getModifierName osType "ctrl"),
   ("ControlRight", getModifierName osType "ctrl"),
   ("AltLeft", getModifierName osType "alt"),
   ("AltRight", getModifierName osType "alt"),
   ("MetaLeft", getModifierName osType "meta"),
   ("MetaRight", getModifierName osType "meta"),
   ("OSLeft", getModifierName osType "meta"),
   ("OSRight", getModifierName osType "meta"),
   ("CapsLock", "caps lock"),
   ("Tab", "tab"),
   ("Enter", "enter"),
   ("Space", "space"),
   ("Backspace", "backspace"),
   ("Delete", "delete"),
   ("Escape", "esc"),
   ("ArrowUp", "up"),
   ("ArrowDown", "down"),
   ("ArrowLeft", "left"),
   ("ArrowRight", "right"),
   ("Home", "home"),
   ("End", "end"),
   ("PageUp", "page up"),
   ("PageDown", "page down"),
   ("Insert", "insert"),
   ("PrintScreen", "print screen"),
   ("ScrollLock", "scroll lock"),
   ("Pause", "pause"),
   ("ContextMenu", "menu"),
   ("NumpadMultiply", "numpad *"),
   ("NumpadAdd", "numpad +"),
   ("NumpadSubtract", "numpad -"),
   ("NumpadDecimal", "numpad ."),
   ("NumpadDivide", "numpad /"),
   ("NumLock", "num lock")]

/-- The `punctuationMap` object literal inside `getKeyName`. -/
def punctuationMap : List (String × String) :=
  [("Semicolon", ";"),
   ("Equal", "="),
   ("Comma", ","),
   ("Minus", "-"),
   ("Period", "."),
   ("Slash", "/"),
   ("Backquote", "`"),
   ("BracketLeft", "["),
   ("Backslash", "\\"),
   ("BracketRight", "]"),
   ("Quote", "\x27")]

/-- The `keyMap` object literal used on the `e.key` fallback path. -/
def keyMap (osType : OSType) : List (String × String) :=
  [("Control", if osType = OSType.macos then "ctrl" else "ctrl"),
   ("Alt", if osType = OSType.macos then "option" else "alt"),
   ("Shift", "shift"),
   ("Meta", if osType = OSType.macos then "command"
            else if osType = OSType.windows then "win" else "super"),
   ("OS", if osType = OSType.macos then "command"
          else if osType = OSType.windows then "win" else "super"),
   ("CapsLock", "caps lock"),
   ("ArrowUp", "up"),
   ("ArrowDown", "down"),
   ("ArrowLeft", "left"),
   ("ArrowRight", "right"),
   ("Escape", "esc"),
   (" ", "space")]

/-- Model of `getKeyName(e, osType)` from `keyboard.ts`: classification on the
physical `code` field, falling back to the logical `key` field, falling back
to `unknown-<numeric code>`. -/
def getKeyName (e : KeyEvent) (osType : OSType) : String :=
  if e.code ≠ "" then
    let l := e.code.data
    if isFnKeyCode l then ⟨lowerL l⟩
    else
      match keyLetterCode l with
      | some c => ⟨[toLowerChar c]⟩
      | none =>
        match digitCode l with
        | some d => ⟨[d]⟩
        | none =>
          match numpadDigitCode l with
          | some d => ⟨['n', 'u', 'm', 'p', 'a', 'd', ' ', d]⟩
          | none =>
            match (modifierMap osType).lookup e.code with
            | some name => name
            | none =>
              match punctuationMap.lookup e.code with
              | some name => name
              | none => ⟨camelSplitL (lowerL l)⟩
  else if e.key ≠ "" then
    match (keyMap osType).lookup e.key with
    | some name => name
    | none => ⟨lowerL e.key.data⟩
  else
    "unknown-" ++
      Nat.repr (if e.keyCode ≠ 0 then e.keyCode
                else if e.which ≠ 0 then e.which else 0)

/-- Model of `normalizeKey(key)` from `keyboard.ts`: strips a literal `left ` or
`right ` word when the token is exactly two space-separated words. -/
def normalizeKey (key : String) : String :=
  if startsL "left ".data key.data || startsL "right ".data key.data then
    let parts := splitOnChar ' ' key.data
    if parts.length = 2 then ⟨parts.getD 1 []⟩ else key
  else key

/-- Model of `getMouseButtonName(e)` from `keyboard.ts`, as a function of `e.button`.
The source returns a string on every branch (its `string | null` type is
never realised as `null`). -/
def getMouseButtonName (button : Nat) : String :=
  match button with
  | 0 => "mouseleft"
  | 1 => "mousemiddle"
  | 2 => "mouseright"
  | 3 => "mouse4"
  | 4 => "mouse5"
  | b => "mouse" ++ Nat.repr (b + 1)

/-- Model of `isMouseButton(inputName)` from `keyboard.ts`, on character lists. -/
def isMouseButtonL (t : List Char) : Bool :=
  let lower := lowerL t
  startsL "mouse".data lower || lower == "mouseleft".data ||
    lower == "mouseright".data || lower == "mousemiddle".data

/-- Model of `isMouseButton(inputName)` from `keyboard.ts`. -/
def isMouseButton (inputName : String) : Bool := isMouseButtonL inputName.data

/-- The `displayNames` object literal of `getMouseButtonDisplayName`,
accessed at the lowercased token (JS property lookup = key equality). -/
def mouseDisplayLookup (lower : List Char) : Option (List Char) :=
  if lower == "mouseleft".data then some "Left Click".data
  else if lower == "mouseright".data then some "Right Click".data
  else if lower == "mousemiddle".data then some "Middle Click".data
  else if lower == "mouse1".data then some "Left Click".data
  else if lower == "mouse2".data then some "Right Click".data
  else if lower == "mouse3".data then some "Middle Click".data
  else if lower == "mouse4".data then some "Mouse 4".data
  else if lower == "mouse5".data then some "Mouse 5".data
  else if lower == "mouseforward".data then some "Mouse Forward".data
  else if lower == "mouseback".data then some "Mouse Back".data
  else none

/-- Model of `getMouseButtonDisplayName(buttonName)` from `keyboard.ts`: table lookup
on the lowercased name, then the `^mouse(\d+)$` regex producing
`Mouse <n>`, then the input unchanged. -/
def getMouseButtonDisplayNameL (t : List Char) : List Char :=
  let lower := lowerL t
  match mouseDisplayLookup lower with
  | some d => d
  | none =>
    match lower with
    | 'm' :: 'o' :: 'u' :: 's' :: 'e' :: rest =>
      if (!rest.isEmpty) && rest.all jsIsDigit then "Mouse ".data ++ rest
      else t
    | _ => t

/-- The step `word.charAt(0).toUpperCase() + word.slice(1)` from `formatInputDisplay`. -/
def capWordL : List Char → List Char
  | [] => []
  | c :: cs => toUpperChar c :: cs

/-- The keyboard branch of `formatInputDisplay`: split on spaces, capitalize
each word, rejoin with spaces. -/
def titleCaseL (w : List Char) : List Char :=
  joinSep [' '] ((splitOnChar ' ' w).map capWordL)

/-- Model of `formatInputDisplay(inputName)` from `keyboard.ts`, on character lists. -/
def formatInputDisplayL (t : List Char) : List Char :=
  if isMouseButtonL t then getMouseButtonDisplayNameL t else titleCaseL t

/-- Model of `formatInputDisplay(inputName)` from `keyboard.ts`. -/
def formatInputDisplay (inputName : String) : String :=
  ⟨formatInputDisplayL inputName.data⟩

/-- The chord display round-trip exactly as the spec words it: split the
stored chord on `+`, display-format each part, rejoin with ` + `. -/
def displayChord (s : String) : String :=
  ⟨joinSep " + ".data ((splitOnChar '+' s.data).map formatInputDisplayL)⟩

/-- The chord display transformation as `BabblShortcut` actually renders a
stored binding: each split part is passed through `.trim()` before
`formatInputDisplay` (OnlineProviderToggle.tsx, binding display). -/
def displayChordTrimL (s : List Char) : List Char :=
  joinSep " + ".data
    ((splitOnChar '+' s).map (fun part => formatInputDisplayL (trimL part)))

/-- String-level wrapper of `displayChordTrimL`. -/
def displayChordTrim (s : String) : String := ⟨displayChordTrimL s.data⟩

/-- Local state of the `BabblShortcut` component that drives one recording
session (`keyPressed`, `recordedKeys`, `editingShortcutId`,
`originalBinding` useState hooks). -/
structure RecorderState where
  keyPressed : List String
  recordedKeys : List String
  editingShortcutId : Option String
  originalBinding : String
deriving DecidableEq, Repr

/-- A backend command issued through the bridge. `suspendBinding` and
`resumeBinding` rejections are swallowed with `.catch(console.error)` in the
source, so only the issuing of the call is observable; `updateBinding` can
throw into the surrounding `try`. -/
inductive BackendCall
  | suspend (id : String)
  | resume (id : String)
  | update (id : String) (value : String)
deriving DecidableEq, Repr

/-- Observable backend side of a run: the settings store of binding values
(the `bindings` map the component reads through `getSetting`, keyed by
binding id with its `current_binding` chord string) and the chronological
trace of issued backend calls. -/
structure World where
  store : List (String × String)
  calls : List BackendCall
deriving DecidableEq, Repr

/-- Success oracle for `updateBinding` (failure injection for the `try`
blocks of the recorder). -/
structure Backend where
  updateOk : String → String → Bool

/-- Persisting a successful `updateBinding`: overwrite the entry when the id
is present, insert it otherwise. -/
def setStore (store : List (String × String)) (id v : String) :
    List (String × String) :=
  if (store.lookup id).isSome then
    store.map (fun p => if p.1 = id then (id, v) else p)
  else store ++ [(id, v)]

/-- Issue `commands.suspendBinding(id)` (rejection swallowed). -/
def callSuspend (w : World) (id : String) : World :=
  { w with calls := w.calls ++ [BackendCall.suspend id] }

/-- Issue `commands.resumeBinding(id)` (rejection swallowed). -/
def callResume (w : World) (id : String) : World :=
  { w with calls := w.calls ++ [BackendCall.resume id] }

/-- Issue `updateBinding(id, v)`; returns the new world and whether the call
succeeded (persisting the value) or threw. -/
def callUpdate (env : Backend) (w : World) (id v : String) : World × Bool :=
  if env.updateOk id v then
    ({ store := setStore w.store id v,
       calls := w.calls ++ [BackendCall.update id v] }, true)
  else
    ({ w with calls := w.calls ++ [BackendCall.update id v] }, false)

/-- The four `set*` calls that end every session
(`setEditingShortcutId(null)`, `setKeyPressed([])`, `setRecordedKeys([])`,
`setOriginalBinding("")`). -/
def clearedSession : RecorderState :=
  { keyPressed := [], recordedKeys := [], editingShortcutId := none,
    originalBinding := "" }

/-- The cancel block shared verbatim by the Escape branch of `handleKeyDown`
and by `handleClickOutside`, mirroring the JS truthiness guards
`if (editingShortcutId && originalBinding) ... else if (editingShortcutId)`:
when a session on a truthy (non-empty) id is open, restore the snapshot
(only if one exists) and resume, where a throwing restore skips the resume
and only logs/toasts; an empty-string id is falsy and issues no backend
call; then clear all session state. -/
def cancelSession (env : Backend) (s : RecorderState) (w : World) :
    RecorderState × World :=
  let w2 :=
    match s.editingShortcutId with
    | some id =>
      if id ≠ "" ∧ s.originalBinding ≠ "" then
        let r := callUpdate env w id s.originalBinding
        if r.2 then callResume r.1 id else r.1
      else if id ≠ "" then callResume w id
      else w
    | none => w
  (clearedSession, w2)

/-- The `try`/`catch` commit block of `handleKeyUp`/`handleMouseUp`:
`updateBinding` with the new chord, then resume; on failure, toast and (when
a snapshot exists) try restoring the snapshot followed by resume, where a
throwing restore skips that resume too. -/
def commitAttempt (env : Backend) (s : RecorderState) (w : World)
    (id newShortcut : String) : World :=
  let r := callUpdate env w id newShortcut
  if r.2 then callResume r.1 id
  else if s.originalBinding ≠ "" then
    let r2 := callUpdate env r.1 id s.originalBinding
    if r2.2 then callResume r2.1 id else r2.1
  else r.1

/-- Model of `handleKeyDown` of `BabblShortcut`: ignore auto-repeat, cancel on the
Escape key, otherwise normalize the key and add it to the held-set and (if
new) to the recorded sequence. -/
def handleKeyDown (env : Backend) (osType : OSType) (e : KeyEvent)
    (s : RecorderState) (w : World) : RecorderState × World :=
  if e.isRepeat then (s, w)
  else if e.key = "Escape" then cancelSession env s w
  else
    let key := normalizeKey (getKeyName e osType)
    if s.keyPressed.contains key then (s, w)
    else
      ({ s with
          keyPressed := s.keyPressed ++ [key],
          recordedKeys :=
            if s.recordedKeys.contains key then s.recordedKeys
            else s.recordedKeys ++ [key] }, w)

/-- Model of `handleKeyUp` of `BabblShortcut`: drop the key from the held-set; when
the held-set drains to empty with a non-empty recorded sequence, and the
edited id is truthy and present in the cached bindings map, commit the
joined chord and clear the session state; otherwise leave the session open. -/
def handleKeyUp (env : Backend) (osType : OSType) (e : KeyEvent)
    (s : RecorderState) (w : World) : RecorderState × World :=
  let key := normalizeKey (getKeyName e osType)
  let updated := s.keyPressed.filter (fun k => k ≠ key)
  if updated = [] ∧ s.recordedKeys ≠ [] then
    let newShortcut := String.intercalate "+" s.recordedKeys
    match s.editingShortcutId with
    | some id =>
      if id ≠ "" ∧ (w.store.lookup id).isSome then
        (clearedSession, commitAttempt env s w id newShortcut)
      else ({ s with keyPressed := updated }, w)
    | none => ({ s with keyPressed := updated }, w)
  else ({ s with keyPressed := updated }, w)

/-- Model of `handleMouseDown` of `BabblShortcut`: button indices below 3 are ignored
(reserved for normal UI interaction); other buttons are named and added like
keys. -/
def handleMouseDown (button : Nat) (s : RecorderState) (w : World) :
    RecorderState × World :=
  if button < 3 then (s, w)
  else
    let buttonName := getMouseButtonName button
    if buttonName ≠ "" ∧ ¬ s.keyPressed.contains buttonName then
      ({ s with
          keyPressed := s.keyPressed ++ [buttonName],
          recordedKeys :=
            if s.recordedKeys.contains buttonName then s.recordedKeys
            else s.recordedKeys ++ [buttonName] }, w)
    else (s, w)

/-- Model of `handleMouseUp` of `BabblShortcut`: mirror of `handleKeyUp` for extra
mouse buttons. -/
def handleMouseUp (env : Backend) (button : Nat) (s : RecorderState)
    (w : World) : RecorderState × World :=
  if button < 3 then (s, w)
  else
    let buttonName := getMouseButtonName button
    if buttonName = "" then (s, w)
    else
      let updated := s.keyPressed.filter (fun k => k ≠ buttonName)
      if updated = [] ∧ s.recordedKeys ≠ [] then
        let newShortcut := String.intercalate "+" s.recordedKeys
        match s.editingShortcutId with
        | some id =>
          if id ≠ "" ∧ (w.store.lookup id).isSome then
            (clearedSession, commitAttempt env s w id newShortcut)
          else ({ s with keyPressed := updated }, w)
        | none => ({ s with keyPressed := updated }, w)
      else ({ s with keyPressed := updated }, w)

/-- Model of `handleClickOutside` of `BabblShortcut`. `outside` stands for
`activeElement && !activeElement.contains(e.target)`: the active editor
element exists and the click landed outside its bounds. Such a click runs
exactly the cancel block. -/
def handleClickOutside (env : Backend) (outside : Bool) (s : RecorderState)
    (w : World) : RecorderState × World :=
  if outside then cancelSession env s w else (s, w)

/-- Model of `startRecording(id)` of `BabblShortcut`: a same-id start is a pure
no-op; otherwise suspend the binding, snapshot its current chord value
(empty string when absent or empty) and open a fresh session for `id`. -/
def startRecording (id : String) (s : RecorderState) (w : World) :
    RecorderState × World :=
  if s.editingShortcutId = some id then (s, w)
  else
    ({ keyPressed := [], recordedKeys := [],
       editingShortcutId := some id,
       originalBinding := (w.store.lookup id).getD "" },
     callSuspend w id)

/-- One physical interaction event during a session. -/
inductive REvent
  | kdown (e : KeyEvent)
  | kup (e : KeyEvent)
  | mdown (button : Nat)
  | mup (button : Nat)
  | clickOut (outside : Bool)

/-- Dispatch one event to the matching handler. -/
def stepEvent (env : Backend) (osType : OSType) (sw : RecorderState × World) :
    REvent → RecorderState × World
  | REvent.kdown e => handleKeyDown env osType e sw.1 sw.2
  | REvent.kup e => handleKeyUp env osType e sw.1 sw.2
  | REvent.mdown b => handleMouseDown b sw.1 sw.2
  | REvent.mup b => handleMouseUp env b sw.1 sw.2
  | REvent.clickOut o => handleClickOutside env o sw.1 sw.2

/-- Process a sequence of events; the effect re-registers its handlers after
every state change (all session state is in the dependency array), so each
event observes the state left by the previous one. -/
def runEvents (env : Backend) (osType : OSType)
    (sw : RecorderState × World) (evts : List REvent) :
    RecorderState × World :=
  evts.foldl (stepEvent env osType) sw

/-- The idle component state before any session. -/
def idleState : RecorderState :=
  { keyPressed := [], recordedKeys := [], editingShortcutId := none,
    originalBinding := "" }

/-- Canonical `ControlLeft` key-down/up event. -/
def ctrlLeftEvt : KeyEvent :=
  { code := "ControlLeft", key := "Control", keyCode := 17, which := 17,
    isRepeat := false }

/-- Canonical `KeyA` key-down/up event. -/
def keyAEvt : KeyEvent :=
  { code := "KeyA", key := "a", keyCode := 65, which := 65,
    isRepeat := false }

/-- Canonical Escape key-down event (`e.key === "Escape"`). -/
def escapeEvt : KeyEvent :=
  { code := "Escape", key := "Escape", keyCode := 27, which := 27,
    isRepeat := false }

/-- A backend on which every `updateBinding` succeeds. -/
def envAllOk : Backend := { updateOk := fun _ _ => true }

/-- A backend on which every `updateBinding` throws. -/
def envAllFail : Backend := { updateOk := fun _ _ => false }

/-- Model of `setupEventListeners` from `RecordingOverlay.tsx`: registers the three
`listen` subscriptions and builds the cleanup closure that would remove
them. Returns (subscriptions after registration, cleanup closure). -/
def setupEventListeners (active : List String) :
    List String × (List String → List String) :=
  let after := active ++ ["show-overlay", "hide-overlay", "mic-level"]
  (after,
   fun cur =>
     ((cur.erase "show-overlay").erase "hide-overlay").erase "mic-level")

/-- The mount effect of `RecordingOverlay`: its body evaluates
`setupEventListeners();` and returns `undefined` to React, so the cleanup
closure (returned inside the async function, wrapped in a promise) is
discarded. The effect therefore yields no cleanup (`none`). -/
def overlayMountEffect (active : List String) :
    List String × Option (List String → List String) :=
  ((setupEventListeners active).1, none)

/-- The `model-state-changed` effect of `TranslateToEnglish`: registers the
subscription and returns `() => { modelStateUnlisten.then((fn) => fn()); }`
to React, which removes it. -/
def translateMountEffect (active : List String) :
    List String × Option (List String → List String) :=
  (active ++ ["model-state-changed"],
   some (fun cur => cur.erase "model-state-changed"))

/-- React unmount: run the cleanup returned by the effect, if any. -/
def unmountEffect (p : List String × Option (List String → List String)) :
    List String :=
  match p.2 with
  | some cleanup => cleanup p.1
  | none => p.1

/-- One smoothing step of the `mic-level` listener in `RecordingOverlay`:
`prev * 0.7 + target * 0.3`, with JS numbers modelled as exact rationals. -/
def smoothStep (prev target : ℚ) : ℚ := prev * (7 / 10) + target * (3 / 10)

/-- The per-batch vector update
`smoothedLevelsRef.current.map((prev, i) => prev * 0.7 + (newLevels[i] || 0) * 0.3)`:
independent per channel, missing incoming entries default to 0. -/
def micLevelStep : List ℚ → List ℚ → List ℚ
  | [], _ => []
  | p :: ps, [] => smoothStep p 0 :: micLevelStep ps []
  | p :: ps, t :: ts => smoothStep p t :: micLevelStep ps ts

/-- One channel fed the constant input `c` for `n` batches, starting from
the zero initialisation. -/
def smoothIter (c : ℚ) : Nat → ℚ
  | 0 => 0
  | n + 1 => smoothStep (smoothIter c n) c

/-- One channel after a single impulse of height `v` (first batch) followed
by zero input, starting from the zero initialisation. -/
def impulseIter (v : ℚ) : Nat → ℚ
  | 0 => smoothStep 0 v
  | n + 1 => smoothStep (impulseIter v n) 0

/-- Position-preserving reformulation of `titleCaseL`: the flag says whether
the next non-space character starts a word and is capitalized. Used only in
proofs (equivalence with the split/map/join form is proved below). -/
def tcAux : Bool → List Char → List Char
  | _, [] => []
  | b, c :: rest =>
    if c = ' ' then ' ' :: tcAux true rest
    else (if b then toUpperChar c else c) :: tcAux false rest

/-- Shape of the tail pieces obtained by re-splitting a ` + `-joined list on
`+`: every middle piece gains a space on both sides, the last piece gains a
leading space. Used only in proofs. -/
def spacedTail : List (List Char) → List (List Char)
  | [] => []
  | [x] => [' ' :: x]
  | x :: y :: xs => (' ' :: (x ++ [' '])) :: spacedTail (y :: xs)

/-- Shape of all pieces obtained by re-splitting a ` + `-joined list on `+`.
Used only in proofs. -/
def spacedList : List (List Char) → List (List Char)
  | [] => []
  | [x] => [x]
  | x :: y :: xs => (x ++ [' ']) :: spacedTail (y :: xs)

/-- The character list has no leading or trailing JS whitespace (what
`trim` guarantees about its output). Used only in proofs. -/
def NoEdgeWs (l : List Char) : Prop :=
  (∀ c, l.head? = some c → isJsWs c = false) ∧
  (∀ c, l.getLast? = some c → isJsWs c = false)

theorem jsIsUpper_toLowerChar (c : Char) : jsIsUpper (toLowerChar c) = false := by
  unfold toLowerChar
  split
  all_goals first | rfl | (unfold jsIsUpper; split <;> simp_all)

theorem toLowerChar_toUpperChar (c : Char) :
    toLowerChar (toUpperChar c) = toLowerChar c := by
  unfold toUpperChar
  split
  all_goals first | decide | rfl

theorem jsIsLower_toUpperChar (c : Char) : jsIsLower (toUpperChar c) = false := by
  unfold toUpperChar
  split
  all_goals first | rfl | (unfold jsIsLower; split <;> simp_all)

theorem toUpperChar_of_not_lower (c : Char) (h : jsIsLower c = false) :
    toUpperChar c = c := by
  revert h
  unfold toUpperChar
  split
  all_goals first | decide | (intro hh; rfl)

theorem toUpperChar_idem (c : Char) :
    toUpperChar (toUpperChar c) = toUpperChar c :=
  toUpperChar_of_not_lower _ (jsIsLower_toUpperChar c)

theorem toUpperChar_ne_space (c : Char) (h : c ≠ ' ') : toUpperChar c ≠ ' ' := by
  revert h
  unfold toUpperChar
  split
  all_goals first | decide | exact id

theorem isJsWs_toUpperChar (c : Char) : isJsWs (toUpperChar c) = isJsWs c := by
  unfold toUpperChar
  split
  all_goals first | decide | rfl

theorem toLowerChar_eq_plus (c : Char) (h : toLowerChar c = '+') : c = '+' := by
  revert h
  unfold toLowerChar
  split
  all_goals first | decide | exact id

theorem toUpperChar_eq_plus (c : Char) (h : toUpperChar c = '+') : c = '+' := by
  revert h
  unfold toUpperChar
  split
  all_goals first | decide | exact id

theorem toLowerChar_of_digit (c : Char) (h : jsIsDigit c = true) :
    toLowerChar c = c := by
  revert h
  unfold jsIsDigit
  split
  all_goals first | decide | (intro hh; exact absurd hh (by decide))

theorem jsIsDigit_of_ws (c : Char) (h : isJsWs c = true) :
    jsIsDigit c = false := by
  unfold isJsWs at h
  simp only [Bool.or_eq_true, decide_eq_true_eq] at h
  rcases h with ((h | h) | h) | h <;> subst h <;> decide

/-- C5: for every code-path modifier pair (ShiftLeft/ShiftRight,
ControlLeft/ControlRight, AltLeft/AltRight, MetaLeft/MetaRight) and every OS
type, normalization (`normalizeKey` of `getKeyName`) of the two events of
the pair yields the identical token, whatever the logical key field, numeric
codes and repeat flag of the events are. -/
theorem modifier_pairs_collapse (osType : OSType) (k1 k2 : String)
    (n1 m1 n2 m2 : Nat) (r1 r2 : Bool) :
    (normalizeKey (getKeyName ⟨"ShiftLeft", k1, n1, m1, r1⟩ osType)
      = normalizeKey (getKeyName ⟨"ShiftRight", k2, n2, m2, r2⟩ osType)) ∧
    (normalizeKey (getKeyName ⟨"ControlLeft", k1, n1, m1, r1⟩ osType)
      = normalizeKey (getKeyName ⟨"ControlRight", k2, n2, m2, r2⟩ osType)) ∧
    (normalizeKey (getKeyName ⟨"AltLeft", k1, n1, m1, r1⟩ osType)
      = normalizeKey (getKeyName ⟨"AltRight", k2, n2, m2, r2⟩ osType)) ∧
    (normalizeKey (getKeyName ⟨"MetaLeft", k1, n1, m1, r1⟩ osType)
      = normalizeKey (getKeyName ⟨"MetaRight", k2, n2, m2, r2⟩ osType)) := by
  cases osType <;> exact ⟨rfl, rfl, rfl, rfl⟩

/-- C7 (code bug): for a keyboard event whose `code` matches none of the
classification patterns, `getKeyName` lowercases first and only then applies
the camel-case splitting regex; since a lowercased ASCII string contains no
uppercase character, the regex can never match, and `IntlBackslash` yields
`"intlbackslash"`, not the documented `"intl backslash"`. The second
conjunct shows the dead regex in general: on any lowercased character list
the camel-split is the identity. -/
theorem fallback_keeps_camel_boundaries_unsplit :
    (getKeyName ⟨"IntlBackslash", "IntlBackslash", 226, 226, false⟩
        OSType.linux = "intlbackslash"
      ∧ "intlbackslash" ≠ ("intl backslash" : String)) ∧
    ∀ l : List Char, camelSplitL (lowerL l) = lowerL l := by
  refine ⟨⟨by decide, by decide⟩, fun l => ?_⟩
  induction l with
  | nil => rfl
  | cons x xs ih =>
    cases xs with
    | nil => rfl
    | cons y ys =>
      show camelSplitL (toLowerChar x :: toLowerChar y :: lowerL ys) = _
      rw [camelSplitL]
      rw [jsIsUpper_toLowerChar y]
      simp only [Bool.and_false, if_neg (by decide : ¬ (false = true))]
      exact congrArg (toLowerChar x :: ·) ih

theorem getMouseButtonName_ge3 (b : Nat) (h : 3 ≤ b) :
    getMouseButtonName b = "mouse" ++ Nat.repr (b + 1) := by
  rcases b with _ | _ | _ | _ | _ | n
  · omega
  · omega
  · omega
  · decide
  · decide
  · rfl

theorem mouseName_ne_empty (x : String) : "mouse" ++ x ≠ "" := by
  intro h
  have hd := congrArg String.data h
  simp [String.data_append] at hd

/-- C6: during a session, a mouse-down with button index below 3 leaves the
held-set, the recorded sequence and the backend untouched, while a
mouse-down with button index 3 or greater adds the token `mouse<index+1>` to
the held-set (and, if new, to the recorded sequence), unless it is already
held. -/
theorem mouse_down_capture (b : Nat) (s : RecorderState) (w : World) :
    handleMouseDown b s w =
      if b < 3 then (s, w)
      else if s.keyPressed.contains ("mouse" ++ Nat.repr (b + 1)) then (s, w)
      else
        ({ s with
            keyPressed := s.keyPressed ++ ["mouse" ++ Nat.repr (b + 1)],
            recordedKeys :=
              if s.recordedKeys.contains ("mouse" ++ Nat.repr (b + 1)) then
                s.recordedKeys
              else s.recordedKeys ++ ["mouse" ++ Nat.repr (b + 1)] }, w) := by
  by_cases hb : b < 3
  · simp [handleMouseDown, hb]
  · have h3 : 3 ≤ b := by omega
    rw [handleMouseDown, if_neg hb, if_neg hb, getMouseButtonName_ge3 b h3]
    by_cases hc : s.keyPressed.contains ("mouse" ++ Nat.repr (b + 1))
    · rw [if_pos hc]
      rw [if_neg]
      intro hcontra
      exact hcontra.2 hc
    · rw [if_neg hc]
      rw [if_pos ⟨mouseName_ne_empty _, hc⟩]

theorem lookup_map_set (store : List (String × String)) (id v : String)
    (h : (store.lookup id).isSome) :
    ((store.map (fun p => if p.1 = id then (id, v) else p)).lookup id)
      = some v := by
  induction store with
  | nil => simp [List.lookup] at h
  | cons p ps ih =>
    simp only [List.map_cons]
    by_cases hp : p.1 = id
    · rw [if_pos hp]
      simp [List.lookup]
    · rw [if_neg hp]
      have hne : (id == p.1) = false :=
        beq_eq_false_iff_ne.mpr (fun hh => hp hh.symm)
      simp only [List.lookup, hne] at h ⊢
      exact ih h

theorem lookup_append_absent (store : List (String × String)) (id v : String)
    (h : store.lookup id = none) :
    ((store ++ [(id, v)]).lookup id) = some v := by
  induction store with
  | nil => simp [List.lookup]
  | cons p ps ih =>
    by_cases hp : (id == p.1) = true
    · simp [List.lookup, hp] at h
    · have hne : (id == p.1) = false := by
        cases hb : (id == p.1)
        · rfl
        · exact absurd hb hp
      simp only [List.lookup, hne] at h
      simp only [List.cons_append, List.lookup, hne]
      exact ih h

theorem lookup_setStore (store : List (String × String)) (id v : String) :
    ((setStore store id v).lookup id) = some v := by
  unfold setStore
  by_cases h : (store.lookup id).isSome
  · rw [if_pos h]
    exact lookup_map_set store id v h
  · rw [if_neg h]
    refine lookup_append_absent store id v ?_
    cases hl : store.lookup id
    · rfl
    · rw [hl] at h
      exact absurd rfl h

/-- C1 (amended): during an active session on a truthy (non-empty) binding
id, Escape key-down and outside-click run the identical cancel block: they
always end the session (all session state cleared) and the binding value
afterwards equals the pre-session snapshot; `resume` is issued exactly once
on the exit paths where the restore write succeeds or where no snapshot
exists, but on the path where the restore write itself fails no `resume` is
issued (the source places `resumeBinding` after `updateBinding` inside the
same `try`, so a throwing restore skips it). The non-empty-id hypothesis
mirrors the source guard `if (editingShortcutId && ...)`: an empty-string
id is falsy there and would issue no backend call at all. -/
theorem cancel_trigger_paths (env : Backend) (osType : OSType) (e : KeyEvent)
    (s : RecorderState) (w : World) (id : String)
    (hid : s.editingShortcutId = some id) (hid0 : id ≠ "")
    (hkey : e.key = "Escape") (hrep : e.isRepeat = false)
    (hsnap : ((w.store.lookup id).getD "") = s.originalBinding) :
    handleKeyDown env osType e s w = handleClickOutside env true s w ∧
    handleKeyDown env osType e s w =
      (clearedSession,
       { store :=
           if s.originalBinding ≠ "" ∧ env.updateOk id s.originalBinding then
             setStore w.store id s.originalBinding
           else w.store,
         calls := w.calls ++
           (if s.originalBinding = "" then [BackendCall.resume id]
            else if env.updateOk id s.originalBinding then
              [BackendCall.update id s.originalBinding, BackendCall.resume id]
            else [BackendCall.update id s.originalBinding]) }) ∧
    (((handleKeyDown env osType e s w).2.store.lookup id).getD "")
      = s.originalBinding := by
  have h1 : handleKeyDown env osType e s w = cancelSession env s w := by
    simp [handleKeyDown, hrep, hkey]
  have h2 : handleClickOutside env true s w = cancelSession env s w := by
    simp [handleClickOutside]
  have h3 : cancelSession env s w =
      (clearedSession,
       { store :=
           if s.originalBinding ≠ "" ∧ env.updateOk id s.originalBinding then
             setStore w.store id s.originalBinding
           else w.store,
         calls := w.calls ++
           (if s.originalBinding = "" then [BackendCall.resume id]
            else if env.updateOk id s.originalBinding then
              [BackendCall.update id s.originalBinding, BackendCall.resume id]
            else [BackendCall.update id s.originalBinding]) }) := by
    unfold cancelSession
    rw [hid]
    by_cases ho : s.originalBinding = ""
    · simp [ho, hid0, callResume]
    · by_cases hok : env.updateOk id s.originalBinding
      · simp [ho, hok, hid0, callUpdate, callResume]
      · simp [ho, hok, hid0, callUpdate]
  refine ⟨h1.trans h2.symm, h1.trans h3, ?_⟩
  rw [h1, h3]
  by_cases ho : s.originalBinding = ""
  · rw [ho] at hsnap
    simp only [ho]
    simpa using hsnap
  · by_cases hok : env.updateOk id s.originalBinding
    · simp only [if_pos (And.intro ho hok)]
      rw [lookup_setStore]
      rfl
    · have : ¬ (s.originalBinding ≠ "" ∧ env.updateOk id s.originalBinding) :=
        fun hc => hok hc.2
      simp only [if_neg this]
      exact hsnap

/-- C1 witness: the amended theorem applied to a concrete session for
binding `b` with snapshot `ctrl` and a backend whose `updateBinding` always
throws: the session still ends, but the only call issued is the failed
restore, with no `resume`. -/
theorem cancel_trigger_paths_witness :
    handleKeyDown envAllFail OSType.linux escapeEvt
        ⟨[], ["x"], some "b", "ctrl"⟩ ⟨[("b", "ctrl")], []⟩
      = handleClickOutside envAllFail true
          ⟨[], ["x"], some "b", "ctrl"⟩ ⟨[("b", "ctrl")], []⟩ ∧
    handleKeyDown envAllFail OSType.linux escapeEvt
        ⟨[], ["x"], some "b", "ctrl"⟩ ⟨[("b", "ctrl")], []⟩
      = (clearedSession,
         ⟨[("b", "ctrl")], [BackendCall.update "b" "ctrl"]⟩) ∧
    (((handleKeyDown envAllFail OSType.linux escapeEvt
          ⟨[], ["x"], some "b", "ctrl"⟩
          ⟨[("b", "ctrl")], []⟩).2.store.lookup "b").getD "") = "ctrl" := by
  have h := cancel_trigger_paths envAllFail OSType.linux escapeEvt
    ⟨[], ["x"], some "b", "ctrl"⟩ ⟨[("b", "ctrl")], []⟩ "b"
    rfl (by decide) rfl rfl (by decide)
  exact ⟨h.1, h.2.1.trans (by decide), h.2.2⟩

/-- C1 counterexample to the claim as stated: at a concrete active session
with snapshot `ctrl`, Escape with a failing restore write ends the session
while issuing zero `resume` calls, contradicting `resume is invoked exactly
once on every exit path, including the path where the binding write
(restore) itself fails`. -/
theorem escape_restore_failure_skips_resume :
    ((handleKeyDown envAllFail OSType.linux escapeEvt
        ⟨[], ["x"], some "b", "ctrl"⟩
        ⟨[("b", "ctrl")], []⟩).1.editingShortcutId = none) ∧
    ((handleKeyDown envAllFail OSType.linux escapeEvt
        ⟨[], ["x"], some "b", "ctrl"⟩
        ⟨[("b", "ctrl")], []⟩).2.calls.count (BackendCall.resume "b") = 0) := by
  decide

/-- C2 (amended): calling `startRecording` for the id already being
recorded is a pure no-op (no state change, no backend call); calling it for
a different id while a session is open does not close the existing session:
it issues only `suspend(newId)`, snapshots the new binding, resets the
held-set and recorded sequence and overwrites the editing id, with no
`resume` or restore write for the previously edited binding. -/
theorem session_start_policy (id : String) (s : RecorderState) (w : World) :
    (s.editingShortcutId = some id → startRecording id s w = (s, w)) ∧
    (s.editingShortcutId ≠ some id →
      startRecording id s w =
        ({ keyPressed := [], recordedKeys := [],
           editingShortcutId := some id,
           originalBinding := ((w.store.lookup id).getD "") },
         { w with calls := w.calls ++ [BackendCall.suspend id] })) := by
  constructor
  · intro h
    simp [startRecording, h]
  · intro h
    simp [startRecording, h, callSuspend]

/-- C2 witness: the amended theorem applied with a session open for `a`:
re-starting `a` changes nothing, while starting `b` issues only
`suspend(b)` and overwrites the session. -/
theorem session_start_policy_witness :
    startRecording "a" ⟨[], [], some "a", "v"⟩ ⟨[("a", "v")], []⟩
      = (⟨[], [], some "a", "v"⟩, ⟨[("a", "v")], []⟩) ∧
    startRecording "b" ⟨[], [], some "a", "v"⟩ ⟨[("a", "v")], []⟩
      = (⟨[], [], some "b", ""⟩, ⟨[("a", "v")], [BackendCall.suspend "b"]⟩) :=
  ⟨(session_start_policy "a" ⟨[], [], some "a", "v"⟩ ⟨[("a", "v")], []⟩).1 rfl,
   ((session_start_policy "b" ⟨[], [], some "a", "v"⟩
      ⟨[("a", "v")], []⟩).2 (by decide)).trans (by decide)⟩

/-- C2 counterexample to the claim as stated: starting a session for `b`
while a session for `a` is open opens the new session without ever
resuming (or writing) binding `a`, so the existing session is not
force-closed first. -/
theorem session_start_no_force_close :
    ((startRecording "b" ⟨[], [], some "a", "v"⟩
        ⟨[("a", "v"), ("b", "u")], []⟩).1.editingShortcutId = some "b") ∧
    ((startRecording "b" ⟨[], [], some "a", "v"⟩
        ⟨[("a", "v"), ("b", "u")], []⟩).2.calls = [BackendCall.suspend "b"]) ∧
    ((startRecording "b" ⟨[], [], some "a", "v"⟩
        ⟨[("a", "v"), ("b", "u")], []⟩).2.calls.count
          (BackendCall.resume "a") = 0) := by
  decide

/-- C10: when the edited binding id is absent from the cached bindings map,
a key-up (or extra-button mouse-up) only removes the released token from the
held-set: even when the held-set drains to empty with a non-empty recorded
sequence, no `updateBinding` or `resumeBinding` is issued, the store is
untouched, and the session (editing id, recorded sequence) stays open. -/
theorem commit_gate_requires_cached_binding (env : Backend) (osType : OSType)
    (s : RecorderState) (w : World) (id : String)
    (hid : s.editingShortcutId = some id)
    (habsent : w.store.lookup id = none) :
    (∀ e : KeyEvent, handleKeyUp env osType e s w
        = ({ s with keyPressed := (s.keyPressed.filter
              (fun k => k ≠ normalizeKey (getKeyName e osType))) }, w)) ∧
    (∀ b : Nat, 3 ≤ b → handleMouseUp env b s w
        = ({ s with keyPressed := (s.keyPressed.filter
              (fun k => k ≠ getMouseButtonName b)) }, w)) := by
  have hguard : ¬ (id ≠ "" ∧ (w.store.lookup id).isSome) := by
    intro hc
    rw [habsent] at hc
    exact absurd hc.2 (by decide)
  constructor
  · intro e
    simp only [handleKeyUp, hid]
    by_cases hcond : (s.keyPressed.filter
        (fun k => k ≠ normalizeKey (getKeyName e osType))) = []
        ∧ s.recordedKeys ≠ []
    · rw [if_pos hcond, if_neg hguard]
    · rw [if_neg hcond]
  · intro b hb
    have hb3 : ¬ b < 3 := by omega
    have hname : ¬ getMouseButtonName b = "" := by
      rw [getMouseButtonName_ge3 b hb]
      exact mouseName_ne_empty _
    simp only [handleMouseUp, hid]
    rw [if_neg hb3, if_neg hname]
    by_cases hcond : (s.keyPressed.filter
        (fun k => k ≠ getMouseButtonName b)) = [] ∧ s.recordedKeys ≠ []
    · rw [if_pos hcond, if_neg hguard]
    · rw [if_neg hcond]

/-- C10 witness: concrete sessions on id `x` with an empty bindings map;
releasing the last held token leaves the session open and the backend
untouched, for a key-up and for a mouse-up of button index 3. -/
theorem commit_gate_witness :
    handleKeyUp envAllOk OSType.linux keyAEvt
        ⟨["a"], ["a"], some "x", ""⟩ ⟨[], []⟩
      = (⟨[], ["a"], some "x", ""⟩, ⟨[], []⟩) ∧
    handleMouseUp envAllOk 3 ⟨["mouse4"], ["mouse4"], some "x", ""⟩ ⟨[], []⟩
      = (⟨[], ["mouse4"], some "x", ""⟩, ⟨[], []⟩) := by
  constructor
  · exact ((commit_gate_requires_cached_binding envAllOk OSType.linux
      ⟨["a"], ["a"], some "x", ""⟩ ⟨[], []⟩ "x" rfl rfl).1 keyAEvt).trans
      (by decide)
  · exact ((commit_gate_requires_cached_binding envAllOk OSType.linux
      ⟨["mouse4"], ["mouse4"], some "x", ""⟩ ⟨[], []⟩ "x" rfl rfl).2 3
      (by decide)).trans (by decide)

theorem runEvents_cons (env : Backend) (osType : OSType)
    (sw : RecorderState × World) (e : REvent) (evts : List REvent) :
    runEvents env osType sw (e :: evts)
      = runEvents env osType (stepEvent env osType sw e) evts := rfl

theorem runEvents_nil (env : Backend) (osType : OSType)
    (sw : RecorderState × World) : runEvents env osType sw [] = sw := rfl

theorem stepEvent_kdown (env : Backend) (osType : OSType) (s : RecorderState)
    (w : World) (e : KeyEvent) :
    stepEvent env osType (s, w) (REvent.kdown e)
      = handleKeyDown env osType e s w := rfl

theorem stepEvent_kup (env : Backend) (osType : OSType) (s : RecorderState)
    (w : World) (e : KeyEvent) :
    stepEvent env osType (s, w) (REvent.kup e)
      = handleKeyUp env osType e s w := rfl

/-- C3: for a session on an existing binding (cached and with a non-empty
id), pressing `ControlLeft` then `KeyA` records exactly `["ctrl", "a"]` in
press order, and releasing both keys commits exactly once: the whole run
issues exactly the calls `suspend`, one `updateBinding` with value
`"ctrl+a"`, and `resume`, and stores `"ctrl+a"`. -/
theorem chord_lifecycle (env : Backend) (osType : OSType) (id : String)
    (w : World) (hid : id ≠ "") (hb : (w.store.lookup id).isSome)
    (hok : env.updateOk id "ctrl+a" = true) :
    ((runEvents env osType (startRecording id idleState w)
        [REvent.kdown ctrlLeftEvt, REvent.kdown keyAEvt]).1.recordedKeys
      = ["ctrl", "a"]) ∧
    (runEvents env osType (startRecording id idleState w)
        [REvent.kdown ctrlLeftEvt, REvent.kdown keyAEvt,
         REvent.kup ctrlLeftEvt, REvent.kup keyAEvt]
      = (clearedSession,
         { store := setStore w.store id "ctrl+a",
           calls := w.calls ++
             [BackendCall.suspend id, BackendCall.update id "ctrl+a",
              BackendCall.resume id] })) ∧
    (((runEvents env osType (startRecording id idleState w)
        [REvent.kdown ctrlLeftEvt, REvent.kdown keyAEvt,
         REvent.kup ctrlLeftEvt, REvent.kup keyAEvt]).2.store.lookup id)
      = some "ctrl+a") := by
  have hctrl : normalizeKey (getKeyName ctrlLeftEvt osType) = "ctrl" := by
    cases osType <;> rfl
  have ha : normalizeKey (getKeyName keyAEvt osType) = "a" := by
    cases osType <;> rfl
  have step0 : startRecording id idleState w
      = ({ keyPressed := [], recordedKeys := [], editingShortcutId := some id,
           originalBinding := ((w.store.lookup id).getD "") },
         { w with calls := w.calls ++ [BackendCall.suspend id] }) := by
    rw [startRecording, if_neg (by simp [idleState])]
    rfl
  have h1 : ∀ (ob : String) (w1 : World),
      handleKeyDown env osType ctrlLeftEvt ⟨[], [], some id, ob⟩ w1
        = (⟨["ctrl"], ["ctrl"], some id, ob⟩, w1) := by
    intro ob w1
    simp only [handleKeyDown, hctrl]
    simp [ctrlLeftEvt]
  have h2 : ∀ (ob : String) (w1 : World),
      handleKeyDown env osType keyAEvt ⟨["ctrl"], ["ctrl"], some id, ob⟩ w1
        = (⟨["ctrl", "a"], ["ctrl", "a"], some id, ob⟩, w1) := by
    intro ob w1
    simp only [handleKeyDown, ha]
    simp [keyAEvt]
  have h3 : ∀ (ob : String) (w1 : World),
      handleKeyUp env osType ctrlLeftEvt
          ⟨["ctrl", "a"], ["ctrl", "a"], some id, ob⟩ w1
        = (⟨["a"], ["ctrl", "a"], some id, ob⟩, w1) := by
    intro ob w1
    simp only [handleKeyUp, hctrl]
    simp
  have h4 : ∀ (ob : String),
      handleKeyUp env osType keyAEvt
          ⟨["a"], ["ctrl", "a"], some id, ob⟩
          { w with calls := w.calls ++ [BackendCall.suspend id] }
        = (clearedSession,
           { store := setStore w.store id "ctrl+a",
             calls := w.calls ++
               [BackendCall.suspend id, BackendCall.update id "ctrl+a",
                BackendCall.resume id] }) := by
    intro ob
    simp only [handleKeyUp, ha]
    rw [if_pos (by simp : (List.filter (fun k => k ≠ ("a" : String))
      ["a"] = [] ∧ (["ctrl", "a"] : List String) ≠ []))]
    rw [if_pos (⟨hid, hb⟩ : id ≠ "" ∧
      ((({ w with calls := w.calls ++ [BackendCall.suspend id] } :
        World).store.lookup id).isSome))]
    rw [show String.intercalate "+" ["ctrl", "a"] = "ctrl+a" from rfl]
    unfold commitAttempt callUpdate
    rw [if_pos hok]
    simp [callResume, List.append_assoc]
  refine ⟨?_, ?_, ?_⟩
  · rw [step0, runEvents_cons, stepEvent_kdown, h1, runEvents_cons,
      stepEvent_kdown, h2, runEvents_nil]
  · rw [step0, runEvents_cons, stepEvent_kdown, h1, runEvents_cons,
      stepEvent_kdown, h2, runEvents_cons, stepEvent_kup, h3,
      runEvents_cons, stepEvent_kup, h4, runEvents_nil]
  · rw [step0, runEvents_cons, stepEvent_kdown, h1, runEvents_cons,
      stepEvent_kdown, h2, runEvents_cons, stepEvent_kup, h3,
      runEvents_cons, stepEvent_kup, h4, runEvents_nil]
    exact lookup_setStore w.store id "ctrl+a"

/-- C3 witness: the lifecycle theorem applied to the concrete binding
`bind` with prior value `x` and an always-succeeding backend. -/
theorem chord_lifecycle_witness :
    (runEvents envAllOk OSType.linux
        (startRecording "bind" idleState ⟨[("bind", "x")], []⟩)
        [REvent.kdown ctrlLeftEvt, REvent.kdown keyAEvt,
         REvent.kup ctrlLeftEvt, REvent.kup keyAEvt]).2.store.lookup "bind"
      = some "ctrl+a" :=
  (chord_lifecycle envAllOk OSType.linux "bind" ⟨[("bind", "x")], []⟩
    (by decide) (by decide) rfl).2.2

/-- C4 (code bug): mounting and unmounting `RecordingOverlay` leaves its
three subscriptions (`show-overlay`, `hide-overlay`, `mic-level`) active,
because the effect body calls the async `setupEventListeners()` without
returning its cleanup closure to React; the `TranslateToEnglish`
`model-state-changed` effect, by contrast, does return a cleanup and leaves
nothing behind. -/
theorem overlay_subscriptions_survive_unmount :
    unmountEffect (overlayMountEffect [])
      = ["show-overlay", "hide-overlay", "mic-level"] ∧
    unmountEffect (overlayMountEffect []) ≠ [] ∧
    unmountEffect (translateMountEffect []) = [] :=
  ⟨rfl, by decide, rfl⟩

/-- C9: over the exact-arithmetic model of the smoothing recurrence, a
channel fed a constant non-negative input from the zero start is monotone
non-decreasing and never exceeds the input, and a single impulse followed by
zero input decays geometrically with ratio 0.7 per step. -/
theorem mic_level_smoothing (c v : ℚ) (n : Nat) :
    (0 ≤ c → smoothIter c n ≤ smoothIter c (n + 1) ∧ smoothIter c n ≤ c) ∧
    impulseIter v (n + 1) = (7 / 10) * impulseIter v n := by
  constructor
  · intro hc
    have hb : ∀ m, smoothIter c m ≤ c := by
      intro m
      induction m with
      | zero => exact hc
      | succ k ih =>
        show smoothStep (smoothIter c k) c ≤ c
        unfold smoothStep
        linarith
    refine ⟨?_, hb n⟩
    show smoothIter c n ≤ smoothStep (smoothIter c n) c
    unfold smoothStep
    have := hb n
    linarith
  · show smoothStep (impulseIter v n) 0 = 7 / 10 * impulseIter v n
    unfold smoothStep
    ring

/-- C9 witness: the smoothing theorem applied at constant input 1, impulse
height 1 and step 1. -/
theorem mic_level_smoothing_witness :
    (smoothIter 1 1 ≤ smoothIter 1 2 ∧ smoothIter 1 1 ≤ 1) ∧
    impulseIter (1 : ℚ) 2 = (7 / 10) * impulseIter 1 1 :=
  ⟨(mic_level_smoothing 1 1 1).1 (by norm_num), (mic_level_smoothing 1 1 1).2⟩

theorem splitOnChar_cons (c x : Char) (xs : List Char) :
    splitOnChar c (x :: xs) =
      if x = c then [] :: splitOnChar c xs
      else
        match splitOnChar c xs with
        | [] => [[x]]
        | p :: ps => (x :: p) :: ps := rfl

theorem splitOnChar_ne_nil (c : Char) (l : List Char) :
    splitOnChar c l ≠ [] := by
  cases l with
  | nil => simp [splitOnChar]
  | cons x xs =>
    rw [splitOnChar_cons]
    by_cases h : x = c
    · simp [h]
    · rw [if_neg h]
      cases hs : splitOnChar c xs <;> simp

theorem not_mem_of_mem_splitOnChar (c : Char) (l : List Char)
    (p : List Char) (hp : p ∈ splitOnChar c l) : c ∉ p := by
  induction l generalizing p with
  | nil =>
    simp [splitOnChar] at hp
    simp [hp]
  | cons x xs ih =>
    rw [splitOnChar_cons] at hp
    by_cases h : x = c
    · rw [if_pos h] at hp
      rcases List.mem_cons.mp hp with hp | hp
      · simp [hp]
      · exact ih p hp
    · rw [if_neg h] at hp
      cases hs : splitOnChar c xs with
      | nil => exact absurd hs (splitOnChar_ne_nil c xs)
      | cons q qs =>
        rw [hs] at hp
        rcases List.mem_cons.mp hp with hp | hp
        · subst hp
          intro hmem
          rcases List.mem_cons.mp hmem with hmem | hmem
          · exact h hmem.symm
          · exact ih q (by rw [hs]; exact List.mem_cons_self q qs) hmem
        · exact ih p (by rw [hs]; exact List.mem_cons_of_mem q hp)

theorem splitOnChar_of_not_mem (c : Char) (l : List Char) (h : c ∉ l) :
    splitOnChar c l = [l] := by
  induction l with
  | nil => rfl
  | cons x xs ih =>
    have hx : ¬ x = c := fun hc => h (by simp [hc])
    have hxs : c ∉ xs := fun hc => h (List.mem_cons_of_mem x hc)
    rw [splitOnChar_cons, if_neg hx, ih hxs]

theorem splitOnChar_append (c : Char) (a b : List Char) (h : c ∉ a) :
    splitOnChar c (a ++ c :: b) = a :: splitOnChar c b := by
  induction a with
  | nil => simp [splitOnChar_cons]
  | cons x xs ih =>
    have hx : ¬ x = c := fun hc => h (by simp [hc])
    have hxs : c ∉ xs := fun hc => h (List.mem_cons_of_mem x hc)
    show splitOnChar c (x :: (xs ++ c :: b)) = (x :: xs) :: splitOnChar c b
    rw [splitOnChar_cons, if_neg hx, ih hxs]

theorem split_joinSep_tail (t : List (List Char)) (y : List Char)
    (h : ∀ x ∈ y :: t, ('+' : Char) ∉ x) :
    splitOnChar '+' (' ' :: joinSep " + ".data (y :: t))
      = spacedTail (y :: t) := by
  induction t generalizing y with
  | nil =>
    show splitOnChar '+' (' ' :: y) = [' ' :: y]
    refine splitOnChar_of_not_mem '+' (' ' :: y) ?_
    intro hmem
    rcases List.mem_cons.mp hmem with hmem | hmem
    · exact absurd hmem.symm (by decide)
    · exact h y (List.mem_cons_self y []) hmem
  | cons z t' ih =>
    have hy : ('+' : Char) ∉ y := h y (List.mem_cons_self y _)
    have harr : ' ' :: joinSep " + ".data (y :: z :: t')
        = (' ' :: (y ++ [' '])) ++ '+' :: ' ' :: joinSep " + ".data (z :: t') := by
      show ' ' :: ((y ++ " + ".data) ++ joinSep " + ".data (z :: t'))
        = (' ' :: (y ++ [' '])) ++ '+' :: ' ' :: joinSep " + ".data (z :: t')
      simp [List.cons_append, List.append_assoc]
    rw [harr, splitOnChar_append]
    · rw [ih z (fun x hx => h x (List.mem_cons_of_mem y hx))]
      rfl
    · intro hmem
      rcases List.mem_cons.mp hmem with hmem | hmem
      · exact absurd hmem.symm (by decide)
      · rcases List.mem_append.mp hmem with hmem | hmem
        · exact hy hmem
        · simp at hmem

theorem split_joinSep_spaced (xs : List (List Char)) (hne : xs ≠ [])
    (h : ∀ x ∈ xs, ('+' : Char) ∉ x) :
    splitOnChar '+' (joinSep " + ".data xs) = spacedList xs := by
  cases xs with
  | nil => exact absurd rfl hne
  | cons x xs' =>
    cases xs' with
    | nil =>
      show splitOnChar '+' x = [x]
      exact splitOnChar_of_not_mem '+' x (h x (List.mem_cons_self x []))
    | cons y t =>
      have hx : ('+' : Char) ∉ x := h x (List.mem_cons_self x _)
      have harr : joinSep " + ".data (x :: y :: t)
          = (x ++ [' ']) ++ '+' :: ' ' :: joinSep " + ".data (y :: t) := by
        show (x ++ " + ".data) ++ joinSep " + ".data (y :: t)
          = (x ++ [' ']) ++ '+' :: ' ' :: joinSep " + ".data (y :: t)
        simp [List.cons_append, List.append_assoc]
      rw [harr, splitOnChar_append]
      · rw [split_joinSep_tail t y (fun q hq => h q (List.mem_cons_of_mem x hq))]
        rfl
      · intro hmem
        rcases List.mem_append.mp hmem with hmem | hmem
        · exact hx hmem
        · simp at hmem

theorem head_dropWhile_not (p : Char → Bool) (l : List Char) (c : Char)
    (h : (l.dropWhile p).head? = some c) : p c = false := by
  induction l with
  | nil => simp at h
  | cons x xs ih =>
    rw [List.dropWhile_cons] at h
    by_cases hx : p x = true
    · rw [if_pos hx] at h
      exact ih h
    · rw [if_neg hx] at h
      simp at h
      rw [← h]
      exact Bool.eq_false_iff.mpr hx

theorem dropWhile_of_head (p : Char → Bool) (l : List Char)
    (h : ∀ c, l.head? = some c → p c = false) : l.dropWhile p = l := by
  cases l with
  | nil => rfl
  | cons x xs =>
    rw [List.dropWhile_cons, if_neg]
    rw [h x rfl]
    simp

theorem rev_dropWhile_of_getLast (l : List Char)
    (h : ∀ c, l.getLast? = some c → isJsWs c = false) :
    l.reverse.dropWhile isJsWs = l.reverse := by
  refine dropWhile_of_head isJsWs l.reverse ?_
  intro c hc
  rw [List.head?_reverse] at hc
  exact h c hc

theorem trim_NoEdgeWs (l : List Char) : NoEdgeWs (trimL l) := by
  constructor
  · intro c hc
    unfold trimL at hc
    rw [List.head?_reverse] at hc
    rcases List.dropWhile_suffix (l := (l.dropWhile isJsWs).reverse)
      (p := isJsWs) with ⟨a, ha⟩
    have hne : (l.dropWhile isJsWs).reverse.dropWhile isJsWs ≠ [] := by
      intro hnil
      rw [hnil] at hc
      simp at hc
    have h2 : ((l.dropWhile isJsWs).reverse).getLast? = some c := by
      rw [← ha, List.getLast?_append_of_ne_nil a hne]
      exact hc
    rw [List.getLast?_reverse] at h2
    exact head_dropWhile_not isJsWs l c h2
  · intro c hc
    unfold trimL at hc
    rw [List.getLast?_reverse] at hc
    exact head_dropWhile_not isJsWs (l.dropWhile isJsWs).reverse c hc

theorem trim_of_NoEdgeWs (x : List Char) (h : NoEdgeWs x) : trimL x = x := by
  unfold trimL
  rw [dropWhile_of_head isJsWs x h.1, rev_dropWhile_of_getLast x h.2,
    List.reverse_reverse]

theorem trim_cons_space (x : List Char) (h : NoEdgeWs x) :
    trimL (' ' :: x) = x := by
  unfold trimL
  rw [List.dropWhile_cons, if_pos (by decide), dropWhile_of_head isJsWs x h.1,
    rev_dropWhile_of_getLast x h.2, List.reverse_reverse]

theorem trim_append_space (x : List Char) (h : NoEdgeWs x) :
    trimL (x ++ [' ']) = x := by
  cases x with
  | nil => decide
  | cons c t =>
    unfold trimL
    have hc : isJsWs c = false := h.1 c rfl
    rw [List.cons_append, List.dropWhile_cons, if_neg (by rw [hc]; simp)]
    have hrev : ((c :: t) ++ [' ']).reverse = ' ' :: (c :: t).reverse := by
      simp
    rw [← List.cons_append, hrev, List.dropWhile_cons, if_pos (by decide),
      rev_dropWhile_of_getLast (c :: t) h.2, List.reverse_reverse]

theorem trim_pad_space (x : List Char) (h : NoEdgeWs x) :
    trimL (' ' :: (x ++ [' '])) = x := by
  have h1 : trimL (' ' :: (x ++ [' '])) = trimL (x ++ [' ']) := by
    unfold trimL
    rw [List.dropWhile_cons, if_pos (by decide)]
  rw [h1, trim_append_space x h]

theorem mem_trimL (l : List Char) (c : Char) (hc : c ∈ trimL l) : c ∈ l := by
  unfold trimL at hc
  rw [List.mem_reverse] at hc
  have h1 := (List.dropWhile_suffix (p := isJsWs)
    (l := (l.dropWhile isJsWs).reverse)).subset hc
  rw [List.mem_reverse] at h1
  exact (List.dropWhile_suffix (p := isJsWs) (l := l)).subset h1

theorem joinSep_cons_head (sep x p : List Char) (ps : List (List Char)) :
    joinSep sep ((x ++ p) :: ps) = x ++ joinSep sep (p :: ps) := by
  cases ps with
  | nil => rfl
  | cons q qs =>
    show (x ++ p) ++ sep ++ joinSep sep (q :: qs)
      = x ++ (p ++ sep ++ joinSep sep (q :: qs))
    simp [List.append_assoc]

theorem tcAux_cons (b : Bool) (c : Char) (rest : List Char) :
    tcAux b (c :: rest) =
      if c = ' ' then ' ' :: tcAux true rest
      else (if b then toUpperChar c else c) :: tcAux false rest := rfl

theorem titleCase_tcAux (w : List Char) :
    titleCaseL w = tcAux true w ∧
    (∀ p ps, splitOnChar ' ' w = p :: ps →
      joinSep [' '] (p :: (ps.map capWordL)) = tcAux false w) := by
  induction w with
  | nil =>
    refine ⟨rfl, ?_⟩
    intro p ps h
    simp [splitOnChar] at h
    rw [h.1, h.2]
    rfl
  | cons c rest ih =>
    obtain ⟨q, qs, hsplit⟩ : ∃ q qs, splitOnChar ' ' rest = q :: qs := by
      cases hs : splitOnChar ' ' rest with
      | nil => exact absurd hs (splitOnChar_ne_nil ' ' rest)
      | cons q qs => exact ⟨q, qs, rfl⟩
    have hrest : joinSep [' '] ((splitOnChar ' ' rest).map capWordL)
        = tcAux true rest := by
      have h1 := ih.1
      unfold titleCaseL at h1
      exact h1
    by_cases hc : c = ' '
    · subst hc
      have hmain : joinSep [' ']
          ((splitOnChar ' ' (' ' :: rest)).map capWordL)
          = tcAux true (' ' :: rest) := by
        rw [splitOnChar_cons, if_pos rfl, tcAux_cons, if_pos rfl, hsplit]
        show joinSep [' '] ([] :: capWordL q :: qs.map capWordL)
          = ' ' :: tcAux true rest
        have hj : joinSep [' '] ([] :: capWordL q :: qs.map capWordL)
            = ' ' :: joinSep [' '] (capWordL q :: qs.map capWordL) := rfl
        rw [hj, ← hrest, hsplit]
        rfl
      refine ⟨hmain, ?_⟩
      intro p ps h
      rw [splitOnChar_cons, if_pos rfl] at h
      injection h with h1 h2
      subst h1
      subst h2
      rw [tcAux_cons, if_pos rfl, hsplit]
      show joinSep [' '] ([] :: capWordL q :: qs.map capWordL)
        = ' ' :: tcAux true rest
      have hj : joinSep [' '] ([] :: capWordL q :: qs.map capWordL)
          = ' ' :: joinSep [' '] (capWordL q :: qs.map capWordL) := rfl
      rw [hj, ← hrest, hsplit]
      rfl
    · have hfalse : joinSep [' '] (q :: qs.map capWordL) = tcAux false rest :=
        ih.2 q qs hsplit
      have hmain : joinSep [' ']
          ((splitOnChar ' ' (c :: rest)).map capWordL)
          = tcAux true (c :: rest) := by
        rw [splitOnChar_cons, if_neg hc, hsplit, tcAux_cons, if_neg hc]
        show joinSep [' '] ((toUpperChar c :: q) :: qs.map capWordL)
          = (if true then toUpperChar c else c) :: tcAux false rest
        have := joinSep_cons_head [' '] [toUpperChar c] q (qs.map capWordL)
        simp only [List.singleton_append] at this
        rw [this, hfalse]
        rfl
      refine ⟨hmain, ?_⟩
      intro p ps h
      rw [splitOnChar_cons, if_neg hc, hsplit] at h
      injection h with h1 h2
      subst h1
      subst h2
      rw [tcAux_cons, if_neg hc]
      have := joinSep_cons_head [' '] [c] q (qs.map capWordL)
      simp only [List.singleton_append] at this
      rw [this, hfalse]
      rfl

theorem titleCaseL_eq_tcAux (w : List Char) : titleCaseL w = tcAux true w :=
  (titleCase_tcAux w).1

theorem tcAux_idem (w : List Char) : ∀ b, tcAux b (tcAux b w) = tcAux b w := by
  induction w with
  | nil => intro b; rfl
  | cons c rest ih =>
    intro b
    by_cases hc : c = ' '
    · subst hc
      rw [tcAux_cons, if_pos rfl, tcAux_cons, if_pos rfl, ih true]
    · rw [tcAux_cons, if_neg hc]
      cases b with
      | false =>
        simp only [Bool.false_eq_true, if_false]
        rw [tcAux_cons, if_neg hc]
        simp only [Bool.false_eq_true, if_false]
        rw [ih false]
      | true =>
        simp only [if_true]
        rw [tcAux_cons, if_neg (toUpperChar_ne_space c hc)]
        simp only [if_true]
        rw [toUpperChar_idem, ih false]

theorem lowerL_tcAux (w : List Char) : ∀ b, lowerL (tcAux b w) = lowerL w := by
  induction w with
  | nil => intro b; rfl
  | cons c rest ih =>
    intro b
    by_cases hc : c = ' '
    · subst hc
      rw [tcAux_cons, if_pos rfl]
      show toLowerChar ' ' :: lowerL (tcAux true rest)
        = toLowerChar ' ' :: lowerL rest
      rw [ih true]
    · rw [tcAux_cons, if_neg hc]
      show toLowerChar (if b then toUpperChar c else c) :: lowerL (tcAux false rest)
        = toLowerChar c :: lowerL rest
      rw [ih false]
      cases b with
      | false => rfl
      | true =>
        simp only [if_true]
        rw [toLowerChar_toUpperChar]

theorem tcAux_plus_free (w : List Char) :
    ∀ b, ('+' : Char) ∉ w → ('+' : Char) ∉ tcAux b w := by
  induction w with
  | nil => intro b _; simp [tcAux]
  | cons c rest ih =>
    intro b hw
    have hc' : ('+' : Char) ∉ rest := fun hm => hw (List.mem_cons_of_mem c hm)
    have hhead : c ≠ '+' := fun he => hw (by rw [he]; exact List.mem_cons_self _ _)
    by_cases hc : c = ' '
    · subst hc
      rw [tcAux_cons, if_pos rfl]
      intro hm
      rcases List.mem_cons.mp hm with hm | hm
      · exact absurd hm.symm (by decide)
      · exact ih true hc' hm
    · rw [tcAux_cons, if_neg hc]
      intro hm
      rcases List.mem_cons.mp hm with hm | hm
      · cases b with
        | false => exact hhead hm.symm
        | true =>
          simp only [if_true] at hm
          exact hhead (toUpperChar_eq_plus c hm.symm)
      · exact ih false hc' hm

theorem map_ws_tcAux (w : List Char) :
    ∀ b, (tcAux b w).map isJsWs = w.map isJsWs := by
  induction w with
  | nil => intro b; rfl
  | cons c rest ih =>
    intro b
    by_cases hc : c = ' '
    · subst hc
      rw [tcAux_cons, if_pos rfl]
      show isJsWs ' ' :: (tcAux true rest).map isJsWs
        = isJsWs ' ' :: rest.map isJsWs
      rw [ih true]
    · rw [tcAux_cons, if_neg hc]
      show isJsWs (if b then toUpperChar c else c) :: (tcAux false rest).map isJsWs
        = isJsWs c :: rest.map isJsWs
      rw [ih false]
      cases b with
      | false => rfl
      | true =>
        simp only [if_true]
        rw [isJsWs_toUpperChar]

theorem tcAux_NoEdgeWs (w : List Char) (h : NoEdgeWs w) :
    NoEdgeWs (tcAux true w) := by
  constructor
  · intro c hc
    cases w with
    | nil => simp [tcAux] at hc
    | cons d rest =>
      have hd : isJsWs d = false := h.1 d rfl
      have hd' : d ≠ ' ' := by
        intro he
        rw [he] at hd
        exact absurd hd (by decide)
      rw [tcAux_cons, if_neg hd'] at hc
      simp only [if_true, List.head?_cons, Option.some.injEq] at hc
      rw [← hc, isJsWs_toUpperChar]
      exact hd
  · intro c hc
    have hmap := map_ws_tcAux w true
    have h1 : ((tcAux true w).map isJsWs).getLast? = some (isJsWs c) := by
      rw [List.getLast?_map, hc]
      rfl
    rw [hmap, List.getLast?_map] at h1
    rcases Option.map_eq_some'.mp h1 with ⟨c0, hc0, hws⟩
    rw [h.2 c0 hc0] at hws
    exact hws.symm

theorem noEdgeWs_iff (l : List Char) :
    NoEdgeWs l ↔ (l.head?.all (fun c => !isJsWs c) = true ∧
      l.getLast?.all (fun c => !isJsWs c) = true) := by
  constructor
  · intro h
    constructor
    · cases hh : l.head? with
      | none => rfl
      | some c =>
        simp only [Option.all_some]
        rw [h.1 c hh]
        rfl
    · cases hh : l.getLast? with
      | none => rfl
      | some c =>
        simp only [Option.all_some]
        rw [h.2 c hh]
        rfl
  · intro h
    constructor
    · intro c hc
      rw [hc] at h
      have h1 := h.1
      simp only [Option.all_some, Bool.not_eq_true'] at h1
      exact h1
    · intro c hc
      rw [hc] at h
      have h2 := h.2
      simp only [Option.all_some, Bool.not_eq_true'] at h2
      exact h2

theorem mem_of_getLast?Eq (l : List Char) (c : Char)
    (h : l.getLast? = some c) : c ∈ l := by
  have hmem : c ∈ l.getLast? := Option.mem_def.mpr h
  rcases List.mem_getLast?_eq_getLast hmem with ⟨hne, hEq⟩
  rw [hEq]
  exact List.getLast_mem hne

theorem mouseDisplay_some (l d : List Char)
    (h : mouseDisplayLookup l = some d) :
    formatInputDisplayL d = d ∧ ('+' : Char) ∉ d ∧ NoEdgeWs d := by
  unfold mouseDisplayLookup at h
  repeat' split at h
  all_goals first
    | (injection h with h
       subst h
       exact ⟨by decide, by decide, (noEdgeWs_iff _).mpr (by decide)⟩)
    | (exact absurd h (by simp))

theorem gmd_cases (w : List Char) :
    (∃ d, mouseDisplayLookup (lowerL w) = some d ∧
      getMouseButtonDisplayNameL w = d) ∨
    (∃ rest, lowerL w = 'm' :: 'o' :: 'u' :: 's' :: 'e' :: rest ∧
      ((!rest.isEmpty) && rest.all jsIsDigit) = true ∧
      getMouseButtonDisplayNameL w = "Mouse ".data ++ rest) ∨
    getMouseButtonDisplayNameL w = w := by
  simp only [getMouseButtonDisplayNameL]
  split
  case _ d heq => exact Or.inl ⟨d, heq, rfl⟩
  case _ heq =>
    split
    case _ rest hw =>
      by_cases hcond : ((!rest.isEmpty) && rest.all jsIsDigit) = true
      · rw [if_pos hcond]
        exact Or.inr (Or.inl ⟨rest, hw, hcond, rfl⟩)
      · rw [if_neg hcond]
        exact Or.inr (Or.inr rfl)
    case _ => exact Or.inr (Or.inr rfl)

theorem format_mouse_numbered (rest : List Char) :
    formatInputDisplayL ("Mouse ".data ++ rest) = "Mouse ".data ++ rest := rfl

theorem isMouse_congr (a b : List Char) (h : lowerL a = lowerL b) :
    isMouseButtonL a = isMouseButtonL b := by
  unfold isMouseButtonL
  rw [h]

theorem lowerL_plus_free (w : List Char) (h : ('+' : Char) ∉ w) :
    ('+' : Char) ∉ lowerL w := by
  intro hm
  rcases List.mem_map.mp hm with ⟨c0, hc0, hlow⟩
  rw [toLowerChar_eq_plus c0 hlow] at hc0
  exact h hc0

theorem digits_plus_free (rest : List Char)
    (h : rest.all jsIsDigit = true) : ('+' : Char) ∉ rest := by
  intro hm
  have := List.all_eq_true.mp h '+' hm
  exact absurd this (by decide)

theorem format_of_mouse (w : List Char) (hm : isMouseButtonL w = true) :
    formatInputDisplayL w = getMouseButtonDisplayNameL w := by
  unfold formatInputDisplayL
  rw [hm]
  simp

theorem format_of_key (w : List Char) (hm : isMouseButtonL w = false) :
    formatInputDisplayL w = titleCaseL w := by
  unfold formatInputDisplayL
  rw [hm]
  simp

theorem format_idem (w : List Char) :
    formatInputDisplayL (formatInputDisplayL w) = formatInputDisplayL w := by
  cases hm : isMouseButtonL w with
  | true =>
    rw [format_of_mouse w hm]
    rcases gmd_cases w with ⟨d, hl, hd⟩ | ⟨rest, hlw, hcond, hd⟩ | hd
    · rw [hd]
      exact (mouseDisplay_some _ _ hl).1
    · rw [hd]
      exact format_mouse_numbered rest
    · rw [hd, format_of_mouse w hm]
      exact hd
  | false =>
    rw [format_of_key w hm, titleCaseL_eq_tcAux]
    have hm2 : isMouseButtonL (tcAux true w) = false := by
      rw [isMouse_congr (tcAux true w) w (lowerL_tcAux w true)]
      exact hm
    rw [format_of_key _ hm2, titleCaseL_eq_tcAux, tcAux_idem]

theorem format_plus_free (w : List Char) (hw : ('+' : Char) ∉ w) :
    ('+' : Char) ∉ formatInputDisplayL w := by
  cases hm : isMouseButtonL w with
  | true =>
    rw [format_of_mouse w hm]
    rcases gmd_cases w with ⟨d, hl, hd⟩ | ⟨rest, hlw, hcond, hd⟩ | hd
    · rw [hd]
      exact (mouseDisplay_some _ _ hl).2.1
    · rw [hd]
      intro hmem
      rcases List.mem_append.mp hmem with hmem | hmem
      · exact absurd hmem (by decide)
      · exact digits_plus_free rest (Bool.and_elim_right hcond) hmem
    · rw [hd]
      exact hw
  | false =>
    rw [format_of_key w hm, titleCaseL_eq_tcAux]
    exact tcAux_plus_free w true hw

theorem format_NoEdgeWs (w : List Char) (h : NoEdgeWs w) :
    NoEdgeWs (formatInputDisplayL w) := by
  cases hm : isMouseButtonL w with
  | true =>
    rw [format_of_mouse w hm]
    rcases gmd_cases w with ⟨d, hl, hd⟩ | ⟨rest, hlw, hcond, hd⟩ | hd
    · rw [hd]
      exact (mouseDisplay_some _ _ hl).2.2
    · rw [hd]
      have hrne : rest ≠ [] := by
        intro hnil
        rw [hnil] at hcond
        exact absurd hcond (by decide)
      constructor
      · intro c hc
        have hc' : some 'M' = some c := hc
        injection hc' with hc'
        rw [← hc']
        decide
      · intro c hc
        rw [List.getLast?_append_of_ne_nil _ hrne] at hc
        have hcm : c ∈ rest := mem_of_getLast?Eq rest c hc
        have hdig := List.all_eq_true.mp (Bool.and_elim_right hcond) c hcm
        cases hws : isJsWs c with
        | false => rfl
        | true => exact absurd hdig (by rw [jsIsDigit_of_ws c hws]; decide)
    · rw [hd]
      exact h
  | false =>
    rw [format_of_key w hm, titleCaseL_eq_tcAux]
    exact tcAux_NoEdgeWs w h

theorem map_format_trim_spacedTail (xs : List (List Char))
    (h : ∀ x ∈ xs, NoEdgeWs x ∧ formatInputDisplayL x = x) :
    (spacedTail xs).map (fun p => formatInputDisplayL (trimL p)) = xs := by
  induction xs with
  | nil => rfl
  | cons x t ih =>
    have hx := h x (List.mem_cons_self x t)
    cases t with
    | nil =>
      show [formatInputDisplayL (trimL (' ' :: x))] = [x]
      rw [trim_cons_space x hx.1, hx.2]
    | cons y t' =>
      show formatInputDisplayL (trimL (' ' :: (x ++ [' '])))
          :: (spacedTail (y :: t')).map (fun p => formatInputDisplayL (trimL p))
        = x :: y :: t'
      rw [trim_pad_space x hx.1, hx.2,
        ih (fun q hq => h q (List.mem_cons_of_mem x hq))]

theorem map_format_trim_spacedList (xs : List (List Char))
    (h : ∀ x ∈ xs, NoEdgeWs x ∧ formatInputDisplayL x = x) :
    (spacedList xs).map (fun p => formatInputDisplayL (trimL p)) = xs := by
  cases xs with
  | nil => rfl
  | cons x t =>
    have hx := h x (List.mem_cons_self x t)
    cases t with
    | nil =>
      show [formatInputDisplayL (trimL x)] = [x]
      rw [trim_of_NoEdgeWs x hx.1, hx.2]
    | cons y t' =>
      show formatInputDisplayL (trimL (x ++ [' ']))
          :: (spacedTail (y :: t')).map (fun p => formatInputDisplayL (trimL p))
        = x :: y :: t'
      rw [trim_append_space x hx.1, hx.2,
        map_format_trim_spacedTail (y :: t')
          (fun q hq => h q (List.mem_cons_of_mem x hq))]

theorem displayChordTrimL_idem (l : List Char) :
    displayChordTrimL (displayChordTrimL l) = displayChordTrimL l := by
  unfold displayChordTrimL
  set xs := (splitOnChar '+' l).map (fun p => formatInputDisplayL (trimL p))
    with hxs
  have hne : xs ≠ [] := by
    rw [hxs]
    intro hnil
    exact splitOnChar_ne_nil '+' l (List.map_eq_nil.mp hnil)
  have hplus : ∀ x ∈ xs, ('+' : Char) ∉ x := by
    intro x hx
    rw [hxs] at hx
    rcases List.mem_map.mp hx with ⟨p, hp, rfl⟩
    refine format_plus_free _ ?_
    intro hm
    exact not_mem_of_mem_splitOnChar '+' l p hp (mem_trimL p '+' hm)
  have hfix : ∀ x ∈ xs, NoEdgeWs x ∧ formatInputDisplayL x = x := by
    intro x hx
    rw [hxs] at hx
    rcases List.mem_map.mp hx with ⟨p, hp, rfl⟩
    exact ⟨format_NoEdgeWs _ (trim_NoEdgeWs p), format_idem _⟩
  rw [split_joinSep_spaced xs hne hplus,
    map_format_trim_spacedList xs hfix]

/-- C8 (amended): `formatInputDisplay("mouse4")` is `"Mouse 4"` and
`formatInputDisplay("ctrl")` is `"Ctrl"`; the split-by-`+`, per-token
display-format, rejoin-with-` + ` transformation is idempotent on every
string provided each split part is passed through `trim()` before
formatting, exactly as the binding display in `BabblShortcut` does. Without
the trim the transformation is not idempotent (see the counterexample). -/
theorem display_roundtrip_stable :
    formatInputDisplay "mouse4" = "Mouse 4" ∧
    formatInputDisplay "ctrl" = "Ctrl" ∧
    ∀ s : String, displayChordTrim (displayChordTrim s) = displayChordTrim s :=
  ⟨by decide, by decide,
   fun s => congrArg String.mk (displayChordTrimL_idem s.data)⟩

/-- C8 counterexample to the claim as stated: without trimming the split
parts, a second application of the transformation to its own output inserts
extra spaces around the separators: `"ctrl+a"` maps to `"Ctrl + A"` and then
to `"Ctrl  +  A"`. -/
theorem display_roundtrip_not_idempotent :
    displayChord (displayChord "ctrl+a") ≠ displayChord "ctrl+a" ∧
    displayChord (displayChord "ctrl+a") = "Ctrl  +  A" := by decide
